import Mathlib

/-!
Shallow embedding of the find-usages search engine of vim-clap
(crates/maple_cli): the regex search runner and aggregation
(dumb_analyzer/find_usages/search_engine/regex/runner.rs), the
usage matcher (utils.rs) and the ctags display formatting
(tools/ctags.rs).

Rust strings that are manipulated at the byte level are modelled as
lists of byte values (List Nat with entries < 256); other strings stay
Lean String.  Process execution and JSON decoding are external effects
and are modelled as explicit function parameters (exec, tryFrom).
Fallible Rust functions returning anyhow::Result are modelled with
Except SearchError; a Rust panic is modelled as Option.none.
-/

/-- A byte stream or byte string, one Nat per byte. -/
abbrev Bytes := List Nat

/-- Error cases of the search engine, after the error taxonomy of the
specification: unsupported language, spawn failure, invalid working
directory, invalid pattern (anyhow::Error in the source). -/
inductive SearchError where
  | unsupportedLanguage
  | spawnFailed
  | invalidWorkingDirectory
  | invalidPattern
deriving DecidableEq, Repr

/-- One parsed hit of the external ripgrep process
(crate tools/ripgrep, declared outside src/): file path, line number,
column, the surrounding line text, and submatch byte offsets. -/
structure Match where
  path : String
  line_number : Nat
  column : Nat
  text : String
  sub_matches : List Nat
deriving DecidableEq, Repr

/-- Strips leading and trailing whitespace characters from a character
list (model of str::trim on the line text). -/
def trimChars (l : List Char) : List Char :=
  ((l.dropWhile Char.isWhitespace).reverse.dropWhile Char.isWhitespace).reverse

/-- Modelled from the spec: is_comment of dumb_analyzer definition.rs
(not under src/): true if the trimmed match line starts with one of the
language's known line/doc-comment tokens. -/
def is_comment (mat : Match) (comments : List String) : Bool :=
  comments.any (fun token => token.toList.isPrefixOf (trimChars mat.text.toList))

/-- A definition kind tag (enum in dumb_analyzer definition.rs, not
under src/; modelled from the spec as its name, e.g. function, class). -/
structure DefinitionKind where
  name : String
deriving DecidableEq, Repr

/-- One definition search result: a kind paired with its matches
(the source field is called matches, a reserved word in Lean). -/
structure DefinitionSearchResult where
  kind : DefinitionKind
  matchList : List Match
deriving DecidableEq, Repr

/-- The aggregated definitions value (struct Definitions in
definition.rs, a wrapper around Vec of DefinitionSearchResult). -/
structure Definitions where
  defs : List DefinitionSearchResult
deriving DecidableEq, Repr

/-- The aggregated occurrences value (struct Occurrences in
definition.rs, a wrapper around Vec of Match). -/
structure Occurrences where
  occs : List Match
deriving DecidableEq, Repr

/-- The command lines built by the runner, modelled structurally.
occurrenceSearch is rg --json --word-regexp <word> --type <lang>
(RegexRunner::occurrences); occurrenceSearchExt is
rg --json --word-regexp <word> -g star-dot-ext
(BasicRunner::find_occurrences); definitionSearch is
rg --trim --json --pcre2 --type <lang> -e <regexp>
(RegexRunner::find_definitions); regexpSearch is
rg --json -e <pattern> --type <lang> (RegexRunner::regexp_search). -/
inductive SearchCommand where
  | occurrenceSearch (word : String) (lang : String)
  | occurrenceSearchExt (word : String) (ext : String)
  | definitionSearch (lang : String) (regexp : String)
  | regexpSearch (pattern : String) (lang : String)
deriving DecidableEq, Repr

/-- BasicRunner::find_matches (runner.rs lines 39-63): runs `command`
as a child process (modelled by exec, which yields the stdout bytes or
a spawn error), splits stdout on the newline byte, decodes each chunk
independently (Match::try_from, modelled by tryFrom), drops chunks that
fail to decode, and, when a comment-token list is supplied, also drops
matches whose line is a comment. -/
def BasicRunner.find_matches (exec : SearchCommand → Except SearchError Bytes)
    (tryFrom : Bytes → Option Match) (command : SearchCommand)
    (comments : Option (List String)) : Except SearchError (List Match) :=
  match exec command with
  | .error e => .error e
  | .ok stdout =>
    match comments with
    | some cs =>
      .ok ((stdout.splitOn 10).filterMap
        (fun s => (tryFrom s).filter (fun mat => !(is_comment mat cs))))
    | none =>
      .ok ((stdout.splitOn 10).filterMap (fun s => tryFrom s))

/-- RegexRunner::occurrences (runner.rs lines 114-121): word-regexp
search restricted to the language's file type, comment-filtered. -/
def RegexRunner.occurrences (exec : SearchCommand → Except SearchError Bytes)
    (tryFrom : Bytes → Option Match) (word lang : String)
    (comments : List String) : Except SearchError (List Match) :=
  BasicRunner.find_matches exec tryFrom (SearchCommand.occurrenceSearch word lang)
    (some comments)

/-- RegexRunner::find_definitions (runner.rs lines 133-146): builds the
full regexp for the kind (build_full_regexp, modelled by the build
parameter since definition.rs is not under src/), then runs the
definition search with no comment filter and tags the result with the
kind. -/
def RegexRunner.find_definitions (exec : SearchCommand → Except SearchError Bytes)
    (tryFrom : Bytes → Option Match)
    (build : String → DefinitionKind → String → Except SearchError String)
    (lang word : String) (kind : DefinitionKind) :
    Except SearchError (DefinitionKind × List Match) :=
  match build lang kind word with
  | .error e => .error e
  | .ok regexp =>
    (BasicRunner.find_matches exec tryFrom (SearchCommand.definitionSearch lang regexp)
      none).map (fun defs => (kind, defs))

/-- RegexRunner::definitions (runner.rs lines 94-109): looks up the
definition rules for the language (get_definition_rules, modelled by
the rules parameter holding the table's kind list for this language,
none when the language is unregistered), runs the per-kind searches,
and keeps exactly the per-kind results that succeeded. -/
def RegexRunner.definitions (rules : Option (List DefinitionKind))
    (find : DefinitionKind → Except SearchError (DefinitionKind × List Match)) :
    Except SearchError (List DefinitionSearchResult) :=
  match rules with
  | none => .error .unsupportedLanguage
  | some kinds =>
    .ok ((kinds.map find).filterMap
      (fun d => d.toOption.map (fun p => { kind := p.1, matchList := p.2 })))

/-- RegexRunner::all (runner.rs lines 81-91): joins the definitions and
occurrences searches and converts either failure into an empty value
with unwrap_or_default. -/
def RegexRunner.all (rules : Option (List DefinitionKind))
    (exec : SearchCommand → Except SearchError Bytes)
    (tryFrom : Bytes → Option Match)
    (build : String → DefinitionKind → String → Except SearchError String)
    (word lang : String) (comments : List String) : Definitions × Occurrences :=
  let definitions :=
    RegexRunner.definitions rules (RegexRunner.find_definitions exec tryFrom build lang word)
  let occurrences := RegexRunner.occurrences exec tryFrom word lang comments
  ({ defs := definitions.toOption.getD [] }, { occs := occurrences.toOption.getD [] })

/-- First index at which w occurs as a contiguous block of l, if any
(helper for modelling substring search with offsets). -/
def firstOccurrence (w l : List Char) : Option Nat :=
  (List.range (l.length + 1)).find? (fun i => w.isPrefixOf (l.drop i))

/-- Modelled from the spec: smart case matching of the matcher crate
(not under src/): the comparison is case-sensitive only if the term
contains an uppercase character, otherwise both term and line are
lowered. -/
def applySmartCase (w l : List Char) : List Char × List Char :=
  if w.any Char.isUpper then (w, l) else (w.map Char.toLower, l.map Char.toLower)

/-- An exact search refinement term (crate types, not under src/):
the line must contain the term. -/
structure ExactTerm where
  word : String
deriving DecidableEq, Repr

/-- An inverse search refinement term (crate types, not under src/):
the line must not contain the term. -/
structure InverseTerm where
  word : String
deriving DecidableEq, Repr

/-- Modelled from the spec: the match of one exact term against a line
with smart case, yielding the byte offsets of the matched characters of
its first occurrence, or none when the term does not match. -/
def ExactTerm.findMatch (t : ExactTerm) (line : String) : Option (List Nat) :=
  let p := applySmartCase t.word.toList line.toList
  (firstOccurrence p.1 p.2).map (fun i => (List.range p.1.length).map (fun j => i + j))

/-- Modelled from the spec: a textual term-level superset test for
exact terms (crate types, not under src/): the other term is a
substring of this term. -/
def ExactTerm.is_superset (t other : ExactTerm) : Bool :=
  (firstOccurrence other.word.toList t.word.toList).isSome

/-- Modelled from the spec: whether one inverse term matches a line
with smart case (crate matcher, not under src/). -/
def InverseTerm.matchLine (t : InverseTerm) (line : String) : Bool :=
  let p := applySmartCase t.word.toList line.toList
  (firstOccurrence p.1 p.2).isSome

/-- Modelled from the spec: a textual term-level superset test for
inverse terms (crate types, not under src/): the other term is a
substring of this term. -/
def InverseTerm.is_superset (t other : InverseTerm) : Bool :=
  (firstOccurrence other.word.toList t.word.toList).isSome

/-- The exact-term matcher of the matcher crate (not under src/),
holding the exact terms; the case mode of the source (CaseMatching,
always Smart here per UsageMatcher::new) is folded into findMatch. -/
structure ExactMatcher where
  exact_terms : List ExactTerm
deriving DecidableEq, Repr

/-- The inverse-term matcher of the matcher crate (not under src/). -/
structure InverseMatcher where
  inverse_terms : List InverseTerm
deriving DecidableEq, Repr

/-- Collects the offsets of every exact term's match in order; none as
soon as one exact term fails to match (logical AND across terms). -/
def exactIndices : List ExactTerm → String → Option (List Nat)
  | [], _ => some []
  | t :: ts, line =>
    match t.findMatch line, exactIndices ts line with
    | some is, some rest => some (is ++ rest)
    | _, _ => none

/-- Modelled from the spec: ExactMatcher::find_matches of the matcher
crate (not under src/): some (score, offsets) iff every exact term
matches the line; the score is unused by the callers under src/ and is
modelled as 0. -/
def ExactMatcher.find_matches (m : ExactMatcher) (line : String) :
    Option (Nat × List Nat) :=
  (exactIndices m.exact_terms line).map (fun is => (0, is))

/-- Modelled from the spec: InverseMatcher::match_any of the matcher
crate (not under src/): true iff some inverse term matches the line. -/
def InverseMatcher.match_any (m : InverseMatcher) (line : String) : Bool :=
  m.inverse_terms.any (fun t => t.matchLine line)

/-- UsageMatcher (utils.rs lines 31-43): yes or no terms. -/
structure UsageMatcher where
  exact_matcher : ExactMatcher
  inverse_matcher : InverseMatcher
deriving DecidableEq, Repr

/-- UsageMatcher::match_indices (utils.rs lines 46-54): the match
indices of the exact terms if the line passes all the checks. -/
def UsageMatcher.match_indices (m : UsageMatcher) (line : String) :
    Option (List Nat) :=
  match m.exact_matcher.find_matches line, m.inverse_matcher.match_any line with
  | some (_, indices), false => some indices
  | _, _ => none

/-- UsageMatcher::is_superset (utils.rs lines 58-70): zips the two
exact-term lists and the two inverse-term lists pairwise and requires
the term-level superset test on every zipped pair. -/
def UsageMatcher.is_superset (m other : UsageMatcher) : Bool :=
  ((m.exact_matcher.exact_terms.zip other.exact_matcher.exact_terms).all
    (fun p => p.1.is_superset p.2))
  && ((m.inverse_matcher.inverse_terms.zip other.inverse_matcher.inverse_terms).all
    (fun p => p.1.is_superset p.2))

/-- Removes adjacent duplicates, keeping the first element of each run
(model of Vec::dedup). -/
def dedupAdj : List Nat → List Nat
  | [] => []
  | [a] => [a]
  | a :: b :: rest => if a = b then dedupAdj (b :: rest) else a :: dedupAdj (b :: rest)

/-- UsageMatcher::match_jump_line (utils.rs lines 72-84): applies
match_indices and on success extends the existing indices with the new
offsets, sorts them (sort_unstable; on Nat any correct sort yields the
same list, modelled by insertion sort) and removes adjacent duplicates
(Vec::dedup). -/
def UsageMatcher.match_jump_line (m : UsageMatcher) (p : String × List Nat) :
    Option (String × List Nat) :=
  match m.match_indices p.1 with
  | some exact_indices =>
    some (p.1, dedupAdj (List.insertionSort (fun a b => a ≤ b) (p.2 ++ exact_indices)))
  | none => none

/-- A byte is an ASCII whitespace byte (model of char::is_whitespace
restricted to the ASCII range used by str::trim). -/
def isAsciiSpaceByte (b : Nat) : Bool :=
  b = 32 || b = 9 || b = 10 || b = 11 || b = 12 || b = 13

/-- Strips leading and trailing whitespace bytes (model of str::trim on
a byte-modelled string). -/
def trimAsciiBytes (l : Bytes) : Bytes :=
  ((l.dropWhile isAsciiSpaceByte).reverse.dropWhile isAsciiSpaceByte).reverse

/-- Whether byte position i is a character boundary of the UTF-8 byte
string s (model of str::is_char_boundary: position 0, the length, or a
position holding a byte that is not a continuation byte). -/
def isCharBoundary (s : Bytes) (i : Nat) : Bool :=
  if i = 0 then true
  else if i = s.length then true
  else if h : i < s.length then
    decide (s.get ⟨i, h⟩ < 128) || decide (192 ≤ s.get ⟨i, h⟩)
  else false

/-- Left-justified padding to width w with spaces, never truncating
(model of the format specifier with a left-align width). -/
def padRight (l : Bytes) (w : Nat) : Bytes :=
  l ++ List.replicate (w - l.length) 32

/-- Decimal digits of n as ASCII bytes (model of Display for usize). -/
def asciiDigits (n : Nat) : Bytes :=
  (Nat.toDigits 10 n).map Char.toNat

/-- A ctags JSON record (tools/ctags.rs lines 91-98); the string fields
are modelled as UTF-8 byte lists. -/
structure TagInfo where
  name : Bytes
  path : Bytes
  pattern : Bytes
  line : Nat
  kind : Bytes
deriving DecidableEq, Repr

/-- TagInfo::display_line (tools/ctags.rs lines 100-115): formats
name:line left-padded to 30, the bracketed kind-at-path left-padded to
30, then the trimmed pattern with its two anchor bytes stripped from
each end via the byte slice pattern[2..len-2].  The slice panics unless
the pattern is at least 4 bytes long with byte positions 2 and len-2 on
character boundaries (for a length below 2 the usize subtraction itself
panics or wraps to an out-of-range end); the panic is modelled as
none. -/
def TagInfo.display_line (t : TagInfo) : Option Bytes :=
  let patLen := t.pattern.length
  if 4 ≤ patLen ∧ isCharBoundary t.pattern 2 = true
      ∧ isCharBoundary t.pattern (patLen - 2) = true then
    let nameLnum := t.name ++ [58] ++ asciiDigits t.line
    let kindPart := [91] ++ t.kind ++ [64] ++ t.path ++ [93]
    some (padRight nameLnum 30 ++ [32] ++ padRight kindPart 30 ++ [32]
      ++ trimAsciiBytes ((t.pattern.drop 2).take (patLen - 4)))
  else
    none

/-- Fixture: an execution that fails to spawn for every command. -/
def execFail : SearchCommand → Except SearchError Bytes :=
  fun _ => .error .spawnFailed

/-- Fixture: a pattern builder that always fails. -/
def buildNone : String → DefinitionKind → String → Except SearchError String :=
  fun _ _ _ => .error .invalidPattern

/-- Fixture: a pattern builder that always yields the regexp rx. -/
def buildRx : String → DefinitionKind → String → Except SearchError String :=
  fun _ _ _ => .ok "rx"

/-- Fixture: a decoder that decodes nothing. -/
def tryFromNone : Bytes → Option Match :=
  fun _ => none

/-- Fixture: a match whose line is a comment line. -/
def mComment : Match :=
  { path := "a.rs", line_number := 1, column := 1, text := "// fn foo()", sub_matches := [6] }

/-- Fixture: a match whose line is ordinary code. -/
def mCode : Match :=
  { path := "a.rs", line_number := 2, column := 1, text := "pub fn foo()", sub_matches := [7] }

/-- Fixture: a decoder mapping chunk 1 to the comment match and chunk 2
to the code match; every other chunk is malformed. -/
def tryFromFix : Bytes → Option Match :=
  fun s => if s = [1] then some mComment else if s = [2] then some mCode else none

/-- Fixture: an execution whose stdout is chunk 1, a newline, chunk 2. -/
def execFix : SearchCommand → Except SearchError Bytes :=
  fun _ => .ok [1, 10, 2]

/-- Claim C1, corrected (counterexample to the frozen claim): a
definition kind whose search succeeds with zero matches is not omitted
from the aggregation; RegexRunner::definitions represents it as an
entry with an empty match list. -/
theorem c1_counterexample :
    RegexRunner.definitions (some [⟨"function"⟩]) (fun k => .ok (k, [])) =
      .ok [{ kind := ⟨"function"⟩, matchList := [] }] ∧
    ({ kind := ⟨"function"⟩, matchList := [] } : DefinitionSearchResult).matchList = [] :=
  ⟨rfl, rfl⟩

/-- Claim C1, amended: the Definitions entries produced by
RegexRunner::definitions are exactly the kinds whose per-kind search
succeeded, each paired with its possibly empty match list; only kinds
whose search failed are omitted. -/
theorem c1_defs_are_exactly_successful_kinds :
    ∀ (kinds : List DefinitionKind)
      (find : DefinitionKind → Except SearchError (DefinitionKind × List Match)),
    ∃ ds, RegexRunner.definitions (some kinds) find = .ok ds ∧
      ∀ d : DefinitionSearchResult,
        d ∈ ds ↔ ∃ k ∈ kinds, find k = .ok (d.kind, d.matchList) := by
  intro kinds find
  refine ⟨_, rfl, fun d => ?_⟩
  simp only [List.mem_filterMap, List.mem_map]
  constructor
  · rintro ⟨r, ⟨k, hk, rfl⟩, hf⟩
    refine ⟨k, hk, ?_⟩
    cases hfind : find k with
    | error e => rw [hfind] at hf; simp [Except.toOption] at hf
    | ok p =>
      rw [hfind] at hf
      simp only [Except.toOption, Option.map_some', Option.some.injEq] at hf
      subst hf
      rfl
  · rintro ⟨k, hk, hfind⟩
    exact ⟨find k, ⟨k, hk, rfl⟩, by rw [hfind]; rfl⟩

/-- Claim C1 witness: the amended characterization at a concrete kind
list and per-kind search. -/
theorem c1_witness :
    ∃ ds, RegexRunner.definitions (some [⟨"class"⟩]) (fun k => .ok (k, [mCode])) = .ok ds ∧
      ∀ d : DefinitionSearchResult,
        d ∈ ds ↔ ∃ k ∈ [(⟨"class"⟩ : DefinitionKind)],
          (Except.ok (k, [mCode]) : Except SearchError (DefinitionKind × List Match)) =
            .ok (d.kind, d.matchList) :=
  c1_defs_are_exactly_successful_kinds [⟨"class"⟩] (fun k => .ok (k, [mCode]))

/-- Claim C2, corrected (counterexample to the frozen claim): with no
registered rule set and an occurrence search that fails to spawn,
RegexRunner::all does not fail and does not propagate either error: it
returns the empty Definitions/Occurrences pair. -/
theorem c2_counterexample :
    RegexRunner.definitions none
        (RegexRunner.find_definitions execFail tryFromNone buildNone "rust" "foo") =
      .error .unsupportedLanguage ∧
    RegexRunner.occurrences execFail tryFromNone "foo" "rust" [] = .error .spawnFailed ∧
    RegexRunner.all none execFail tryFromNone buildNone "foo" "rust" [] = (⟨[]⟩, ⟨[]⟩) :=
  ⟨rfl, rfl, rfl⟩

/-- Claim C2, amended: RegexRunner::definitions itself fails with
UnsupportedLanguage when no rule set is registered, but RegexRunner::all
absorbs that failure, and any failure of the occurrence search, with
unwrap_or_default, yielding empty Definitions and Occurrences instead of
propagating an error. -/
theorem c2_all_absorbs_failures :
    ∀ (exec : SearchCommand → Except SearchError Bytes) (tryFrom : Bytes → Option Match)
      (build : String → DefinitionKind → String → Except SearchError String)
      (word lang : String) (comments : List String),
    RegexRunner.definitions none (RegexRunner.find_definitions exec tryFrom build lang word) =
      .error .unsupportedLanguage ∧
    (RegexRunner.all none exec tryFrom build word lang comments).1 = ⟨[]⟩ ∧
    (∀ e, exec (SearchCommand.occurrenceSearch word lang) = .error e →
      RegexRunner.all none exec tryFrom build word lang comments = (⟨[]⟩, ⟨[]⟩)) := by
  intro exec tryFrom build word lang comments
  refine ⟨rfl, rfl, fun e he => ?_⟩
  simp [RegexRunner.all, RegexRunner.occurrences, BasicRunner.find_matches, he,
    RegexRunner.definitions, Except.toOption]

/-- Claim C2 witness: the amended statement at a concrete failing
execution, with the occurrence spawn-failure hypothesis discharged. -/
theorem c2_witness :
    execFail (SearchCommand.occurrenceSearch "foo" "rust") = .error .spawnFailed ∧
    RegexRunner.all none execFail tryFromNone buildNone "foo" "rust" [] = (⟨[]⟩, ⟨[]⟩) :=
  ⟨rfl, (c2_all_absorbs_failures execFail tryFromNone buildNone "foo" "rust" []).2.2
    .spawnFailed rfl⟩

/-- Claim C6: a failing per-kind search does not fail the aggregation:
RegexRunner::definitions still succeeds, the failed kind contributes no
entry, and the result equals the aggregation over the remaining kinds. -/
theorem c6_failed_kind_contributes_nothing :
    ∀ (kinds₁ kinds₂ : List DefinitionKind) (k : DefinitionKind)
      (find : DefinitionKind → Except SearchError (DefinitionKind × List Match))
      (e : SearchError),
    find k = .error e →
    (∃ ds, RegexRunner.definitions (some (kinds₁ ++ k :: kinds₂)) find = .ok ds) ∧
    RegexRunner.definitions (some (kinds₁ ++ k :: kinds₂)) find =
      RegexRunner.definitions (some (kinds₁ ++ kinds₂)) find := by
  intro kinds₁ kinds₂ k find e he
  refine ⟨⟨_, rfl⟩, ?_⟩
  simp [RegexRunner.definitions, List.filterMap_append, List.filterMap_cons, he,
    Except.toOption]

/-- Claim C6 witness: a concrete two-kind table where the search for
the kind named bad fails to spawn and the kind named function
succeeds. -/
theorem c6_witness :
    (fun k : DefinitionKind => if k.name = "bad" then Except.error SearchError.spawnFailed
      else Except.ok (k, ([] : List Match))) ⟨"bad"⟩ = .error .spawnFailed ∧
    ((∃ ds, RegexRunner.definitions (some ([⟨"function"⟩] ++ ⟨"bad"⟩ :: []))
        (fun k : DefinitionKind => if k.name = "bad" then Except.error SearchError.spawnFailed
          else Except.ok (k, ([] : List Match))) = .ok ds) ∧
      RegexRunner.definitions (some ([⟨"function"⟩] ++ ⟨"bad"⟩ :: []))
        (fun k : DefinitionKind => if k.name = "bad" then Except.error SearchError.spawnFailed
          else Except.ok (k, ([] : List Match))) =
      RegexRunner.definitions (some ([⟨"function"⟩] ++ []))
        (fun k : DefinitionKind => if k.name = "bad" then Except.error SearchError.spawnFailed
          else Except.ok (k, ([] : List Match)))) :=
  ⟨rfl, c6_failed_kind_contributes_nothing [⟨"function"⟩] [] ⟨"bad"⟩ _ _ rfl⟩

/-- Claim C7: when the process output is obtained,
BasicRunner::find_matches never fails on a malformed output line: its
result is exactly the matches decoded from the newline-separated chunks
(restricted to non-comment matches when a comment-token list is
supplied); undecodable chunks are dropped silently. -/
theorem c7_find_matches_decodes_chunkwise :
    ∀ (exec : SearchCommand → Except SearchError Bytes) (tryFrom : Bytes → Option Match)
      (command : SearchCommand) (comments : Option (List String)) (stdout : Bytes),
    exec command = .ok stdout →
    ∃ ms, BasicRunner.find_matches exec tryFrom command comments = .ok ms ∧
      ∀ m : Match, m ∈ ms ↔ ∃ chunk ∈ stdout.splitOn 10, tryFrom chunk = some m ∧
        ∀ cs, comments = some cs → is_comment m cs = false := by
  intro exec tryFrom command comments stdout hexec
  unfold BasicRunner.find_matches
  rw [hexec]
  cases comments with
  | none =>
    refine ⟨_, rfl, fun m => ?_⟩
    simp [List.mem_filterMap]
  | some cs =>
    refine ⟨_, rfl, fun m => ?_⟩
    simp only [List.mem_filterMap, Option.filter_eq_some, Option.mem_def,
      Bool.not_eq_true', Option.some.injEq, forall_eq']

/-- Claim C7 witness: the chunkwise decoding characterization at a
concrete stream holding one comment-line record, one code record and a
decoder that rejects every other chunk. -/
theorem c7_witness :
    ∃ ms, BasicRunner.find_matches execFix tryFromFix
        (SearchCommand.occurrenceSearch "foo" "rust") (some ["//"]) = .ok ms ∧
      ∀ m : Match, m ∈ ms ↔ ∃ chunk ∈ ([1, 10, 2] : Bytes).splitOn 10,
        tryFromFix chunk = some m ∧
        ∀ cs, (some ["//"] : Option (List String)) = some cs → is_comment m cs = false :=
  c7_find_matches_decodes_chunkwise execFix tryFromFix
    (SearchCommand.occurrenceSearch "foo" "rust") (some ["//"]) [1, 10, 2] rfl

/-- Claim C5: occurrence results are comment-filtered while definition
results are not: every match returned by RegexRunner::occurrences has a
non-comment line, while RegexRunner::find_definitions keeps every
decoded match of its stream, comment line or not. -/
theorem c5_comment_filter_asymmetry :
    ∀ (exec : SearchCommand → Except SearchError Bytes) (tryFrom : Bytes → Option Match)
      (build : String → DefinitionKind → String → Except SearchError String)
      (word lang : String) (comments : List String) (kind : DefinitionKind)
      (regexp : String) (stdout : Bytes) (occs defs : List Match),
    build lang kind word = .ok regexp →
    exec (SearchCommand.definitionSearch lang regexp) = .ok stdout →
    RegexRunner.occurrences exec tryFrom word lang comments = .ok occs →
    RegexRunner.find_definitions exec tryFrom build lang word kind = .ok (kind, defs) →
    (∀ m ∈ occs, is_comment m comments = false) ∧
    (∀ chunk ∈ stdout.splitOn 10, ∀ m : Match, tryFrom chunk = some m → m ∈ defs) := by
  intro exec tryFrom build word lang comments kind regexp stdout occs defs
    hbuild hexec hocc hdef
  constructor
  · intro m hm
    unfold RegexRunner.occurrences BasicRunner.find_matches at hocc
    cases hcmd : exec (SearchCommand.occurrenceSearch word lang) with
    | error e => rw [hcmd] at hocc; cases hocc
    | ok s =>
      rw [hcmd] at hocc
      injection hocc with hocc
      subst hocc
      rcases List.mem_filterMap.mp hm with ⟨chunk, _, hsome⟩
      rcases Option.filter_eq_some.mp hsome with ⟨_, hpred⟩
      simpa using hpred
  · intro chunk hchunk m hdec
    unfold RegexRunner.find_definitions BasicRunner.find_matches at hdef
    simp only [hbuild, hexec, Except.map, Except.ok.injEq, Prod.mk.injEq,
      true_and] at hdef
    rw [← hdef]
    exact List.mem_filterMap.mpr ⟨chunk, hchunk, hdec⟩

/-- Claim C5 witness: with the two-record stream, the occurrence search
returns only the code match while the definition search keeps both the
comment match and the code match. -/
theorem c5_witness :
    (∀ m ∈ [mCode], is_comment m ["//"] = false) ∧
    (∀ chunk ∈ ([1, 10, 2] : Bytes).splitOn 10, ∀ m : Match,
      tryFromFix chunk = some m → m ∈ [mComment, mCode]) :=
  c5_comment_filter_asymmetry execFix tryFromFix buildRx "foo" "rust" ["//"]
    ⟨"function"⟩ "rx" [1, 10, 2] [mCode] [mComment, mCode] rfl rfl rfl rfl

/-- Positional reading of a zipped all: with equal lengths, the zip
check holds iff the boolean test holds at every index. -/
lemma zip_all_iff_forall_getD {α : Type} (f : α → α → Bool) (d : α) :
    ∀ (l₁ l₂ : List α), l₁.length = l₂.length →
    ((l₁.zip l₂).all (fun p => f p.1 p.2) = true ↔
      ∀ i, i < l₁.length → f (l₁.getD i d) (l₂.getD i d) = true) := by
  intro l₁ l₂ hlen
  rw [List.all_eq_true]
  constructor
  · intro h i hi
    have hi₂ : i < l₂.length := hlen ▸ hi
    have hz : i < (l₁.zip l₂).length := by
      rw [List.length_zip]
      exact lt_min hi hi₂
    have hmem : (l₁[i], l₂[i]) ∈ l₁.zip l₂ := by
      have hgz := @List.getElem_zip _ _ l₁ l₂ i hz
      exact hgz ▸ List.getElem_mem hz
    have := h _ hmem
    rwa [List.getD_eq_getElem _ _ hi, List.getD_eq_getElem _ _ hi₂]
  · intro h p hp
    rcases List.mem_iff_getElem.mp hp with ⟨i, hz, hpi⟩
    have hi : i < l₁.length := by
      rw [List.length_zip] at hz
      exact lt_of_lt_of_le hz (min_le_left _ _)
    have hi₂ : i < l₂.length := hlen ▸ hi
    rw [List.getElem_zip] at hpi
    rw [← hpi]
    have := h i hi
    rwa [List.getD_eq_getElem _ _ hi, List.getD_eq_getElem _ _ hi₂] at this
  
/-- Claim C3: with equal numbers of exact terms and of inverse terms,
UsageMatcher::is_superset is true iff, position by position in
registration order, each of the first matcher's exact terms is a
term-level superset of the other's exact term at that position, and
likewise for inverse terms. -/
theorem c3_is_superset_positional :
    ∀ (a b : UsageMatcher),
    a.exact_matcher.exact_terms.length = b.exact_matcher.exact_terms.length →
    a.inverse_matcher.inverse_terms.length = b.inverse_matcher.inverse_terms.length →
    (a.is_superset b = true ↔
      ((∀ i, i < a.exact_matcher.exact_terms.length →
          (a.exact_matcher.exact_terms.getD i ⟨""⟩).is_superset
            (b.exact_matcher.exact_terms.getD i ⟨""⟩) = true) ∧
       (∀ i, i < a.inverse_matcher.inverse_terms.length →
          (a.inverse_matcher.inverse_terms.getD i ⟨""⟩).is_superset
            (b.inverse_matcher.inverse_terms.getD i ⟨""⟩) = true))) := by
  intro a b hex hinv
  unfold UsageMatcher.is_superset
  rw [Bool.and_eq_true]
  rw [zip_all_iff_forall_getD (fun x y => x.is_superset y) ⟨""⟩ _ _ hex,
    zip_all_iff_forall_getD (fun x y => x.is_superset y) ⟨""⟩ _ _ hinv]

/-- Fixture: a narrower matcher whose exact term extends the other
matcher's exact term. -/
def supersetA : UsageMatcher := ⟨⟨[⟨"foobar"⟩]⟩, ⟨[⟨"x"⟩]⟩⟩

/-- Fixture: a wider matcher with a shorter exact term. -/
def supersetB : UsageMatcher := ⟨⟨[⟨"foo"⟩]⟩, ⟨[⟨"x"⟩]⟩⟩

/-- Claim C3 witness: the positional characterization at two concrete
matchers with one exact term and one inverse term each. -/
theorem c3_witness :
    supersetA.exact_matcher.exact_terms.length =
      supersetB.exact_matcher.exact_terms.length ∧
    (supersetA.is_superset supersetB = true ↔
      ((∀ i, i < supersetA.exact_matcher.exact_terms.length →
          (supersetA.exact_matcher.exact_terms.getD i ⟨""⟩).is_superset
            (supersetB.exact_matcher.exact_terms.getD i ⟨""⟩) = true) ∧
       (∀ i, i < supersetA.inverse_matcher.inverse_terms.length →
          (supersetA.inverse_matcher.inverse_terms.getD i ⟨""⟩).is_superset
            (supersetB.inverse_matcher.inverse_terms.getD i ⟨""⟩) = true))) :=
  ⟨rfl, c3_is_superset_positional supersetA supersetB rfl rfl⟩

/-- Zipping is unchanged when both lists are first truncated at any
length at least the shorter list's length. -/
lemma zip_take_of_min_le {α β : Type} :
    ∀ (l₁ : List α) (l₂ : List β) (n : Nat),
    min l₁.length l₂.length ≤ n → (l₁.take n).zip (l₂.take n) = l₁.zip l₂ := by
  intro l₁
  induction l₁ with
  | nil => intro l₂ n _; simp
  | cons a t ih =>
    intro l₂ n hn
    cases l₂ with
    | nil => simp
    | cons b s =>
      simp only [List.length_cons] at hn
      have hsucc : min (t.length + 1) (s.length + 1) = min t.length s.length + 1 :=
        Nat.succ_min_succ t.length s.length
      obtain ⟨m, rfl⟩ : ∃ m, n = m + 1 := ⟨n - 1, by omega⟩
      simp only [List.take_succ_cons, List.zip_cons_cons]
      rw [ih s m (by omega)]

/-- Claim C9: UsageMatcher::is_superset compares only the positional
pairs up to the shorter list on each side, ignoring every extra term of
the longer one, and the empty matcher is a superset of every matcher. -/
theorem c9_extra_terms_ignored :
    ∀ (a b : UsageMatcher) (n k : Nat),
    min a.exact_matcher.exact_terms.length b.exact_matcher.exact_terms.length ≤ n →
    min a.inverse_matcher.inverse_terms.length b.inverse_matcher.inverse_terms.length ≤ k →
    (UsageMatcher.is_superset
        ⟨⟨a.exact_matcher.exact_terms.take n⟩, ⟨a.inverse_matcher.inverse_terms.take k⟩⟩
        ⟨⟨b.exact_matcher.exact_terms.take n⟩, ⟨b.inverse_matcher.inverse_terms.take k⟩⟩
      = a.is_superset b) ∧
    UsageMatcher.is_superset ⟨⟨[]⟩, ⟨[]⟩⟩ b = true := by
  intro a b n k hn hk
  constructor
  · unfold UsageMatcher.is_superset
    rw [zip_take_of_min_le _ _ _ hn, zip_take_of_min_le _ _ _ hk]
  · rfl

/-- Claim C9 witness: the matcher with no terms is reported as a
superset of a concrete matcher with one exact and one inverse term. -/
theorem c9_witness :
    min ([] : List ExactTerm).length supersetA.exact_matcher.exact_terms.length ≤ 0 ∧
    UsageMatcher.is_superset ⟨⟨[]⟩, ⟨[]⟩⟩ supersetA = true :=
  ⟨Nat.zero_le 0,
    (c9_extra_terms_ignored ⟨⟨[]⟩, ⟨[]⟩⟩ supersetA 0 0 (Nat.zero_le 0) (Nat.zero_le 0)).2⟩

/-- The collected exact offsets exist iff every exact term matches. -/
lemma exactIndices_isSome_iff :
    ∀ (ts : List ExactTerm) (line : String),
    (exactIndices ts line).isSome = true ↔
      ∀ t ∈ ts, (t.findMatch line).isSome = true := by
  intro ts line
  induction ts with
  | nil => simp [exactIndices]
  | cons t rest ih =>
    simp only [List.mem_cons, forall_eq_or_imp, ← ih]
    cases hm : t.findMatch line with
    | none => simp [exactIndices, hm]
    | some is =>
      cases hr : exactIndices rest line with
      | none => simp [exactIndices, hm, hr]
      | some js => simp [exactIndices, hm, hr]

/-- UsageMatcher::match_indices as a direct match on the collected
exact offsets and the inverse test, with the discarded score gone. -/
lemma match_indices_eq_match :
    ∀ (m : UsageMatcher) (line : String),
    m.match_indices line =
      match exactIndices m.exact_matcher.exact_terms line,
          m.inverse_matcher.match_any line with
      | some is, false => some is
      | _, _ => none := by
  intro m line
  unfold UsageMatcher.match_indices ExactMatcher.find_matches
  cases hx : exactIndices m.exact_matcher.exact_terms line with
  | none => cases m.inverse_matcher.match_any line <;> rfl
  | some is => cases m.inverse_matcher.match_any line <;> rfl

/-- Fixture: the matcher of the specification's worked example, with
exact term foo and inverse term bar. -/
def fooBarMatcher : UsageMatcher := ⟨⟨[⟨"foo"⟩]⟩, ⟨[⟨"bar"⟩]⟩⟩

/-- Claim C4: match_indices returns the byte offsets of the exact-term
matches iff every exact term matches the line and no inverse term
matches it, and returns nothing otherwise; on the worked example with
exact term foo and inverse term bar, the line call foo() yields the
offsets of foo and the lines call foo bar and call baz() yield
nothing. -/
theorem c4_match_indices_iff :
    (∀ (m : UsageMatcher) (line : String),
      ((m.match_indices line).isSome = true ↔
        ((∀ t ∈ m.exact_matcher.exact_terms, (t.findMatch line).isSome = true) ∧
          m.inverse_matcher.match_any line = false)) ∧
      (∀ r, m.match_indices line = some r →
        exactIndices m.exact_matcher.exact_terms line = some r)) ∧
    fooBarMatcher.match_indices "call foo()" = some [5, 6, 7] ∧
    fooBarMatcher.match_indices "call foo bar" = none ∧
    fooBarMatcher.match_indices "call baz()" = none := by
  refine ⟨fun m line => ⟨?_, ?_⟩, by decide, by decide, by decide⟩
  · rw [match_indices_eq_match, ← exactIndices_isSome_iff]
    cases hx : exactIndices m.exact_matcher.exact_terms line with
    | none => cases m.inverse_matcher.match_any line <;> simp
    | some is => cases hb : m.inverse_matcher.match_any line <;> simp
  · intro r hr
    rw [match_indices_eq_match] at hr
    cases hx : exactIndices m.exact_matcher.exact_terms line with
    | none => rw [hx] at hr; cases m.inverse_matcher.match_any line <;> cases hr
    | some is =>
      rw [hx] at hr
      cases hb : m.inverse_matcher.match_any line <;> rw [hb] at hr
      · exact hr ▸ rfl
      · cases hr

/-- Claim C4 witness: the acceptance characterization instantiated at
the worked example's matcher and the accepted line. -/
theorem c4_witness :
    ((fooBarMatcher.match_indices "call foo()").isSome = true ↔
      ((∀ t ∈ fooBarMatcher.exact_matcher.exact_terms,
          (t.findMatch "call foo()").isSome = true) ∧
        fooBarMatcher.inverse_matcher.match_any "call foo()" = false)) ∧
    (∀ r, fooBarMatcher.match_indices "call foo()" = some r →
      exactIndices fooBarMatcher.exact_matcher.exact_terms "call foo()" = some r) :=
  c4_match_indices_iff.1 fooBarMatcher "call foo()"

/-- Removing adjacent duplicates preserves membership. -/
lemma mem_dedupAdj : ∀ (l : List Nat) (x : Nat), x ∈ dedupAdj l ↔ x ∈ l := by
  intro l
  induction l with
  | nil => intro x; simp [dedupAdj]
  | cons a t ih =>
    intro x
    cases t with
    | nil => simp [dedupAdj]
    | cons b rest =>
      by_cases hab : a = b
      · subst hab
        rw [show dedupAdj (a :: a :: rest) = dedupAdj (a :: rest) from by
          simp [dedupAdj]]
        rw [ih x]
        simp [List.mem_cons]
      · rw [show dedupAdj (a :: b :: rest) = a :: dedupAdj (b :: rest) from by
          simp [dedupAdj, hab]]
        simp [List.mem_cons, ih x]

/-- On a list sorted by the weak order, removing adjacent duplicates
yields a strictly sorted list. -/
lemma pairwise_lt_dedupAdj :
    ∀ (l : List Nat), List.Pairwise (· ≤ ·) l →
      List.Pairwise (· < ·) (dedupAdj l) := by
  intro l
  induction l with
  | nil => intro _; simp [dedupAdj]
  | cons a t ih =>
    cases t with
    | nil => intro _; simp [dedupAdj]
    | cons b rest =>
      intro hp
      rcases List.pairwise_cons.mp hp with ⟨hle, hp'⟩
      by_cases hab : a = b
      · rw [show dedupAdj (a :: b :: rest) = dedupAdj (b :: rest) from by
          simp [dedupAdj, hab]]
        exact ih hp'
      · rw [show dedupAdj (a :: b :: rest) = a :: dedupAdj (b :: rest) from by
          simp [dedupAdj, hab]]
        refine List.pairwise_cons.mpr ⟨?_, ih hp'⟩
        intro y hy
        have hyb : y ∈ b :: rest := (mem_dedupAdj _ y).mp hy
        rcases List.mem_cons.mp hyb with rfl | hyr
        · exact lt_of_le_of_ne (hle y (List.mem_cons_self _ _)) hab
        · have hby : b ≤ y := (List.pairwise_cons.mp hp').1 y hyr
          have hab' : a < b := lt_of_le_of_ne (hle b (List.mem_cons_self _ _)) hab
          exact lt_of_lt_of_le hab' hby

/-- Claim C8: match_jump_line returns a result iff match_indices
accepts the line; on success it returns the unchanged line with an
index list that is sorted, duplicate-free, and holds exactly the union
of the existing indices and the new exact-term offsets. -/
theorem c8_match_jump_line_merges :
    ∀ (m : UsageMatcher) (line : String) (indices : List Nat),
    (m.match_indices line = none → m.match_jump_line (line, indices) = none) ∧
    (∀ ex, m.match_indices line = some ex →
      ∃ merged, m.match_jump_line (line, indices) = some (line, merged) ∧
        List.Pairwise (· ≤ ·) merged ∧ merged.Nodup ∧
        (∀ x, x ∈ merged ↔ (x ∈ indices ∨ x ∈ ex))) := by
  intro m line indices
  constructor
  · intro h
    simp [UsageMatcher.match_jump_line, h]
  · intro ex hex
    refine ⟨dedupAdj (List.insertionSort (fun a b => a ≤ b) (indices ++ ex)),
      by simp [UsageMatcher.match_jump_line, hex], ?_, ?_, ?_⟩
    · exact (pairwise_lt_dedupAdj _
        (List.sorted_insertionSort _ (indices ++ ex))).imp le_of_lt
    · exact (pairwise_lt_dedupAdj _
        (List.sorted_insertionSort _ (indices ++ ex))).imp ne_of_lt
    · intro x
      rw [mem_dedupAdj, (List.perm_insertionSort _ (indices ++ ex)).mem_iff,
        List.mem_append]

/-- Fixture: a matcher with the single exact term foo and no inverse
terms, for the merge witness. -/
def jumpMatcher : UsageMatcher := ⟨⟨[⟨"foo"⟩]⟩, ⟨[]⟩⟩

/-- Claim C8 witness: merging the new offsets of foo in the line
foo bar with the existing indices 9 and 2. -/
theorem c8_witness :
    ∃ merged, jumpMatcher.match_jump_line ("foo bar", [9, 2]) = some ("foo bar", merged) ∧
      List.Pairwise (· ≤ ·) merged ∧ merged.Nodup ∧
      (∀ x, x ∈ merged ↔ (x ∈ [9, 2] ∨ x ∈ [0, 1, 2])) :=
  (c8_match_jump_line_merges jumpMatcher "foo bar" [9, 2]).2 [0, 1, 2] (by decide)

/-- Claim C10: TagInfo::display_line is defined exactly when the
pattern is at least 4 bytes long with byte positions 2 and length minus
2 on character boundaries; a pattern shorter than 4 bytes always makes
the anchor-stripping byte slice panic, modelled as none. -/
theorem c10_display_line_definedness :
    ∀ t : TagInfo,
    (t.pattern.length < 4 → t.display_line = none) ∧
    ((t.display_line).isSome = true ↔
      (4 ≤ t.pattern.length ∧ isCharBoundary t.pattern 2 = true ∧
        isCharBoundary t.pattern (t.pattern.length - 2) = true)) := by
  intro t
  constructor
  · intro hlt
    unfold TagInfo.display_line
    rw [if_neg]
    rintro ⟨h4, -, -⟩
    omega
  · unfold TagInfo.display_line
    by_cases h : 4 ≤ t.pattern.length ∧ isCharBoundary t.pattern 2 = true ∧
        isCharBoundary t.pattern (t.pattern.length - 2) = true
    · rw [if_pos h]
      simpa using h
    · rw [if_neg h]
      simpa using h

/-- Claim C10 witness: a two-byte pattern panics (none) while the
five-byte pattern of a slash-caret-x-dollar-slash tag formats. -/
theorem c10_witness :
    TagInfo.display_line ⟨[102], [112], [47, 47], 3, [118]⟩ = none ∧
    (TagInfo.display_line ⟨[102], [112], [47, 94, 120, 36, 47], 3, [118]⟩).isSome = true :=
  ⟨(c10_display_line_definedness ⟨[102], [112], [47, 47], 3, [118]⟩).1 (by decide),
    (c10_display_line_definedness ⟨[102], [112], [47, 94, 120, 36, 47], 3, [118]⟩).2.mpr
      (by decide)⟩
